import Mathlib

/-!
Shallow embedding of `lint.py`, the entrypoint of the omegaUp linting tool,
together with a verification of the orchestration engine it implements.

The concrete linters (`linters` module) and the git helpers (`git_tools`
module) are external collaborators of the core under verification; they are
abstracted as parameters of the run (`Env`), except for
`attempt_automatic_fixes`, which decides the retry claim and is modelled from
the spec (see its doc comment).

Paths and file contents are lists of characters; the working tree is a total
function from paths to contents, threaded through the run so that writes
performed by one checker are visible to the reads of later checkers (as they
are on the real filesystem).  Externally observable actions of the
orchestrator (reading the configuration document, running a checker, the
content reads of line 100, the writes of lines 90-91, and the self
re-invocation retry) are accumulated in an event trace.
-/

/-- File paths, modelled as lists of characters so that the anchored
regular-expression matching of `re.match` can be stated over them. -/
abbrev FPath : Type := List Char

/-- File contents (Python `bytes`), likewise lists of characters. -/
abbrev Content : Type := List Char

/-- The working tree: a total assignment of contents to paths. -/
abbrev FileSys : Type := FPath → Content

/-- Python's `re.match` is anchored at the start of the string: it succeeds
iff the pattern matches some initial segment of the string.  Patterns are
modelled as regular expressions over characters. -/
def reMatch (r : RegularExpression Char) (s : FPath) : Bool :=
  s.inits.any fun t => r.rmatch t

/-- The keys of `_LINTER_MAPPING` (lines 19-27 of `lint.py`).  The mapped
values are constructors living in the external `linters` module and are
abstracted by `Env.getLinter`. -/
def linterNames : List String :=
  ["whitespace", "javascript", "html", "vue", "php", "python", "i18n"]

/-- `linters.LinterException`: raised by a checker that cannot process its
input, carrying a message and the checker's own declaration of whether the
failure is automatically fixable. -/
structure LinterException where
  message : String
  fixable : Bool

/-- The result of a successful `run_all`: the dictionary of new contents per
file (iterated in order by lines 63-70), the lookup of original contents
(line 64), and the shared violation descriptions. -/
structure RunAllOut where
  newFiles : List (FPath × Content)
  orig : FPath → Content
  violations : List String

/-- A checker capability from the external `linters` module: `run_one` is the
per-file entry point (line 35), `run_all` the whole-set entry point
(lines 52-54), which receives a content-lookup callback reading the current
working tree. -/
structure Linter where
  run_one : FPath → Content → Except LinterException (Content × List String)
  run_all : List FPath → (FPath → Content) → Except LinterException RunAllOut

/-- The per-checker configuration entry: `options.get('whitelist', [])` and
`options.get('blacklist', [])` of lines 144 and 150; further checker-specific
options are consumed by the (abstracted) linter constructor. -/
structure LintOptions where
  whitelist : List (RegularExpression Char)
  blacklist : List (RegularExpression Char)

/-- The parsed command-line arguments and configuration document relevant to
`main`: the candidate files, the tool mode (`"fix"` or `"validate"`), the
ordered `config['lint']` mapping, and the non-interactive flag. -/
structure Args where
  files : List FPath
  tool : String
  config : List (String × LintOptions)
  continuous_integration : Bool

/-- The external collaborators of one run: the linter constructors behind
`_LINTER_MAPPING` and the initial working tree read by
`git_tools.file_contents`. -/
structure Env where
  getLinter : String → LintOptions → Linter
  fs0 : FileSys

/-- Externally observable actions of the orchestrator, in order. -/
inductive Event where
  | readConfig : Event
  | checker (name : String) : Event
  | readF (path : FPath) : Event
  | writeF (path : FPath) (contents : Content) : Event
  | retryEv (paths : List FPath) : Event
  deriving DecidableEq

/-- Whether an event is the bounded self re-invocation retry. -/
def Event.isRetry : Event → Bool
  | .retryEv _ => true
  | _ => false

/-- Writing a file in place under its original name (lines 90-91). -/
def updateFS (fs : FileSys) (p : FPath) (c : Content) : FileSys :=
  fun q => if q = p then c else fs q

/-- `_report_linter_results` (lines 74-92): in validate mode only report; in
fix mode overwrite the file at the original name with the new contents.
Returns the `(filename, fixable)` pair of line 92 together with the updated
working tree and the write events performed. -/
def _report_linter_results (filename : FPath) (new_contents : Content)
    (validate : Bool) (violations : List String) (fixable : Bool)
    (fs : FileSys) : (Option FPath × Bool) × FileSys × List Event :=
  if validate then ((some filename, fixable), fs, [])
  else ((some filename, fixable), updateFS fs filename new_contents,
    [Event.writeF filename new_contents])

/-- `_run_linter_one` (lines 32-47): run the linter against one file, with
the contents pre-read into the `files` dictionary of line 100.  A
`LinterException` is absorbed into `(filename, lex.fixable)`; unchanged
contents produce `(None, False)`. -/
def _run_linter_one (linter : Linter) (filename : FPath) (contents : Content)
    (validate_only : Bool) (fs : FileSys) :
    (Option FPath × Bool) × FileSys × List Event :=
  match linter.run_one filename contents with
  | .error lex => ((some filename, lex.fixable), fs, [])
  | .ok (new_contents, violations) =>
    if contents = new_contents then ((none, false), fs, [])
    else _report_linter_results filename new_contents validate_only violations
      true fs

/-- The per-file phase of `_run_linter` (lines 102-106): one task per key of
the `files` dictionary, each given the pre-read snapshot `pre` of its
contents; the tasks' writes are threaded through the working tree.  The pool
order is modelled as the key order. -/
def runPerFile (linter : Linter) (pre : FileSys) (validate_only : Bool) :
    List FPath → FileSys → List (Option FPath × Bool) × FileSys × List Event
  | [], fs => ([], fs, [])
  | f :: rest, fs =>
    let r := _run_linter_one linter f (pre f) validate_only fs
    let rs := runPerFile linter pre validate_only rest r.2.1
    (r.1 :: rs.1, rs.2.1, r.2.2 ++ rs.2.2)

/-- The loop of lines 62-71 over the `new_file_contents` dictionary: an entry
whose new contents equal the original contributes `(None, False)`; a changed
entry goes through `_report_linter_results` with `fixable = True`. -/
def runAllEntries (validate_only : Bool) (orig : FPath → Content)
    (violations : List String) :
    List (FPath × Content) → FileSys →
      List (Option FPath × Bool) × FileSys × List Event
  | [], fs => ([], fs, [])
  | (f, nc) :: rest, fs =>
    if orig f = nc then
      let rs := runAllEntries validate_only orig violations rest fs
      ((none, false) :: rs.1, rs.2.1, rs.2.2)
    else
      let r := _report_linter_results f nc validate_only violations true fs
      let rs := runAllEntries validate_only orig violations rest r.2.1
      (r.1 :: rs.1, rs.2.1, r.2.2 ++ rs.2.2)

/-- `_run_linter_all` (lines 50-71): run the whole-set entry point once over
the filtered files, with the content lookup reading the current working tree.
A `LinterException` marks every path of the batch with the declared
fixability. -/
def _run_linter_all (linter : Linter) (files : List FPath)
    (validate_only : Bool) (fs : FileSys) :
    List (Option FPath × Bool) × FileSys × List Event :=
  match linter.run_all files fs with
  | .error lex => (files.map fun f => (some f, lex.fixable), fs, [])
  | .ok out => runAllEntries validate_only out.orig out.violations
      out.newFiles fs

/-- `_run_linter` (lines 95-110): read the contents of the (deduplicated,
as by the dictionary of line 100) files, run the per-file phase, then the
whole-set phase, and aggregate: the set of non-`None` paths and the
disjunction of the fixable flags. -/
def _run_linter (linter : Linter) (filenames : List FPath)
    (validate_only : Bool) (fs : FileSys) :
    (List FPath × Bool) × FileSys × List Event :=
  let keys := filenames.dedup
  let one := runPerFile linter fs validate_only keys fs
  let whole := _run_linter_all linter filenames validate_only one.2.1
  let results := one.1 ++ whole.1
  ((results.filterMap Prod.fst, results.any Prod.snd), whole.2.1,
    keys.map Event.readF ++ one.2.2 ++ whole.2.2)

/-- The filtering of lines 141-153: keep the candidate files matching at
least one whitelist pattern, then drop those matching some blacklist
pattern; matching is `re.match`, anchored at the start. -/
def filterFiles (files : List FPath) (options : LintOptions) : List FPath :=
  let whitelisted := files.filter fun f =>
    options.whitelist.any fun r => reMatch r f
  whitelisted.filter fun f => options.blacklist.all fun r => !(reMatch r f)

/-- The `for linter, options in config['lint'].items()` loop of lines
134-158, accumulating `file_violations` (a set, modelled as a list with
membership semantics) and `fixable`.  An unknown linter name aborts with
`sys.exit(1)`, modelled as a `none` result at the point it is reached. -/
def checkerLoop (env : Env) (files0 : List FPath) (validate_only : Bool) :
    List (String × LintOptions) → List FPath → Bool → FileSys →
      Option (List FPath × Bool) × FileSys × List Event
  | [], acc, fx, fs => (some (acc, fx), fs, [])
  | (name, options) :: rest, acc, fx, fs =>
    if name ∈ linterNames then
      let lr := _run_linter (env.getLinter name options)
        (filterFiles files0 options) validate_only fs
      let tail := checkerLoop env files0 validate_only rest (acc ∪ lr.1.1)
        (fx || lr.1.2) lr.2.1
      (tail.1, tail.2.1, Event.checker name :: lr.2.2 ++ tail.2.2)
    else (none, fs, [])

/-- `main` (lines 113-181), parameterized by the retry collaborator used in
the validate branch (line 166).  Returns the process exit status and the
event trace.  An empty candidate list returns immediately (lines 117-118),
before the configuration document is opened. -/
def mainWith (env : Env) (args : Args)
    (retryF : List FPath → Bool × List Event) : Nat × List Event :=
  if args.files = [] then (0, [])
  else
    match checkerLoop env args.files (args.tool == "validate") args.config []
        false env.fs0 with
    | (none, _, evs) => (1, Event.readConfig :: evs)
    | (some (file_violations, fixable), _, evs) =>
      if file_violations = [] then (0, Event.readConfig :: evs)
      else if !fixable then (1, Event.readConfig :: evs)
      else if args.tool == "validate" then
        (1, Event.readConfig :: evs ++ (retryF file_violations).2)
      else (1, Event.readConfig :: evs)

/-- Modelled from the spec: `git_tools.attempt_automatic_fixes` is part of
this repository but not under `src/`.  Per §4.7 and §6 ("Retry
self-invocation") it re-invokes the whole pipeline with the mode forced to
`fix`, the file list narrowed to the violating paths of the prior run, and
no prompts (non-interactive), and its outcome is clean iff the sub-run
exits successfully.  The sub-run is in fix mode, so its own retry
collaborator is never consulted (proved in `mainWith_retryF_irrelevant`). -/
def attempt_automatic_fixes (env : Env) (args : Args) (paths : List FPath) :
    Bool × List Event :=
  let subArgs : Args :=
    { args with tool := "fix", files := paths, continuous_integration := true }
  let sub := mainWith env subArgs fun _ => (false, [])
  (sub.1 == 0, Event.retryEv paths :: sub.2)

/-- The complete `main` of `lint.py`, with the retry collaborator plugged
in. -/
def mainRun (env : Env) (args : Args) : Nat × List Event :=
  mainWith env args (attempt_automatic_fixes env args)

/-- The accumulated `(file_violations, fixable)` pair at the decision point
of line 160: produced by the checker loop, or trivially empty when the run
returns at line 118; `none` when the loop aborted on an unknown name. -/
def sessionResult (env : Env) (args : Args) : Option (List FPath × Bool) :=
  if args.files = [] then some ([], false)
  else (checkerLoop env args.files (args.tool == "validate") args.config []
    false env.fs0).1

/-- View a session result as the violating-path set plus the fixable flag. -/
def normPair (p : List FPath × Bool) : Finset FPath × Bool :=
  (p.1.toFinset, p.2)

/-- Normalized session result: the violating-path set and the fixable flag,
forgetting accumulation order and duplicates. -/
def normalizeResult (r : Option (List FPath × Bool)) :
    Option (Finset FPath × Bool) :=
  r.map normPair

/-- The observable contents of the target file over the course of the write
of lines 90-91 (`open(path, 'wb')` then `write(new_contents)`): opening with
mode `wb` truncates the file in place under its original name, and the write
then appends the new contents; so the file holds its old contents before
the open, and an initial segment of the new contents (the empty file right
after truncation, the full new contents once the write completes) at every
point after it. -/
def writeIntermediateContents (old new : Content) : List Content :=
  old :: new.inits

example : reMatch (RegularExpression.char 'a') ['a', 'b'] = true := by decide
example : reMatch (RegularExpression.char 'a') ['b', 'a'] = false := by decide
example : filterFiles [['a'], ['b']] ⟨[RegularExpression.char 'a'], []⟩
    = [['a']] := by decide

/-! Concrete checkers and runs, used to instantiate the abstract linter
interface in witnesses and counterexamples. -/

/-- A checker that never changes anything and never reports. -/
def idLinter : Linter where
  run_one := fun _ c => .ok (c, [])
  run_all := fun _ _ => .ok ⟨[], fun _ => [], []⟩

/-- A per-file checker rewriting contents `x` to `y`. -/
def rewriteLinter : Linter where
  run_one := fun _ c => if c = ['x'] then .ok (['y'], []) else .ok (c, [])
  run_all := fun _ _ => .ok ⟨[], fun _ => [], []⟩

/-- A whole-set checker whose result on file `b` depends on the current
contents of file `a` (cross-file consistency, read through the content
lookup). -/
def crossLinter : Linter where
  run_one := fun _ c => .ok (c, [])
  run_all := fun _ lookup =>
    if lookup ['a'] = ['y'] then .ok ⟨[(['b'], ['z'])], fun _ => ['x'], []⟩
    else .ok ⟨[], fun _ => [], []⟩

/-- A checker that always fails with a non-fixable `LinterException`. -/
def failLinter : Linter where
  run_one := fun _ _ => .error ⟨"boom", false⟩
  run_all := fun _ _ => .error ⟨"boom", false⟩

/-- A checker that always fails with a fixable `LinterException`. -/
def failFixableLinter : Linter where
  run_one := fun _ _ => .error ⟨"boom", true⟩
  run_all := fun _ _ => .error ⟨"boom", true⟩

/-- Whitelist matching only paths starting with `a`. -/
def optA : LintOptions := ⟨[RegularExpression.char 'a'], []⟩

/-- Whitelist matching only paths starting with `b`. -/
def optB : LintOptions := ⟨[RegularExpression.char 'b'], []⟩

/-- Registry with the rewriting checker as `whitespace` and the cross-file
checker as `javascript`; every file initially holds `x`. -/
def envAB : Env where
  getLinter := fun name _ =>
    if name = "whitespace" then rewriteLinter else crossLinter
  fs0 := fun _ => ['x']

/-- Registry where every checker is the inert one. -/
def envId : Env where
  getLinter := fun _ _ => idLinter
  fs0 := fun _ => ['x']

/-- Registry where every checker fails with a fixable exception. -/
def envFail : Env where
  getLinter := fun _ _ => failFixableLinter
  fs0 := fun _ => ['x']

/-! Helper lemmas. -/

/-- Anchored matching holds iff some initial segment of the string fully
matches the pattern. -/
lemma reMatch_iff (r : RegularExpression Char) (s : FPath) :
    reMatch r s = true ↔ ∃ t u, t ++ u = s ∧ r.rmatch t = true := by
  unfold reMatch
  rw [List.any_eq_true]
  constructor
  · rintro ⟨t, ht, hm⟩
    obtain ⟨u, hu⟩ := (List.mem_inits t s).mp ht
    exact ⟨t, u, hu, hm⟩
  · rintro ⟨t, u, hu, hm⟩
    exact ⟨t, (List.mem_inits t s).mpr ⟨u, hu⟩, hm⟩

/-! Claim C3. -/

/-- C3: a candidate path is passed to a checker iff it matches at least one
whitelist pattern and no blacklist pattern, where matching is anchored at
the start of the path (it holds iff some initial segment of the path fully
matches the pattern); in particular an empty whitelist passes no path at
all. -/
theorem filter_membership :
    (∀ (files : List FPath) (o : LintOptions) (f : FPath),
        f ∈ filterFiles files o ↔
          f ∈ files ∧ (∃ r ∈ o.whitelist, reMatch r f = true) ∧
            ∀ r ∈ o.blacklist, reMatch r f = false) ∧
    (∀ (r : RegularExpression Char) (s : FPath),
        reMatch r s = true ↔ ∃ t u, t ++ u = s ∧ r.rmatch t = true) ∧
    (∀ (files : List FPath) (bl : List (RegularExpression Char)),
        filterFiles files ⟨[], bl⟩ = []) := by
  refine ⟨?_, reMatch_iff, ?_⟩
  · intro files o f
    simp only [filterFiles, List.mem_filter, List.any_eq_true,
      List.all_eq_true, Bool.not_eq_true', and_assoc]
  · intro files bl
    simp [filterFiles]

/-- C3 witness: the concrete whitelist `a` passes path `a` out of `a, b`. -/
theorem filter_membership_witness :
    ['a'] ∈ filterFiles [['a'], ['b']] optA :=
  (filter_membership.1 [['a'], ['b']] optA ['a']).mpr
    ⟨by decide, ⟨RegularExpression.char 'a', by simp [optA], by decide⟩,
      by simp [optA]⟩

/-! Claim C5. -/

/-- C5 counterexample: writing new contents `bc` over prior contents `a`,
the target can be observed (right after truncation plus one written
character) holding `b`, which is neither the complete prior contents nor
the complete new contents — the in-place write of lines 90-91 is not atomic
from the caller's perspective. -/
theorem write_not_atomic :
    ['b'] ∈ writeIntermediateContents ['a'] ['b', 'c'] ∧
      ¬(['b'] = ['a'] ∨ ['b'] = ['b', 'c']) := by decide

/-- C5 amended: the fix-mode write happens in place under the original name
by truncating and then writing, so an interruption mid-write leaves either
the complete prior contents or an initial segment of the new contents
(possibly empty), and the completed write leaves exactly the new contents
under the original name, which is what `_report_linter_results` records. -/
theorem write_in_place :
    ∀ (old new : Content),
      (∀ s ∈ writeIntermediateContents old new,
          s = old ∨ ∃ u, s ++ u = new) ∧
      new ∈ writeIntermediateContents old new ∧
      ∀ (f : FPath) (nc : Content) (vs : List String) (fx : Bool)
        (fs : FileSys),
        (_report_linter_results f nc false vs fx fs).2.1 f = nc ∧
        (_report_linter_results f nc false vs fx fs).2.2 =
          [Event.writeF f nc] := by
  intro old new
  refine ⟨?_, ?_, ?_⟩
  · intro s hs
    rcases List.mem_cons.mp hs with h | h
    · exact Or.inl h
    · obtain ⟨u, hu⟩ := (List.mem_inits s new).mp h
      exact Or.inr ⟨u, hu⟩
  · exact List.mem_cons_of_mem _ ((List.mem_inits new new).mpr ⟨[], by simp⟩)
  · intro f nc vs fx fs
    constructor
    · simp [_report_linter_results, updateFS]
    · simp [_report_linter_results]

/-- C5 witness: the intermediate-state bound and the completed write at a
concrete input. -/
theorem write_in_place_witness :
    (['b'] = ['a'] ∨ ∃ u, ['b'] ++ u = ['b', 'c']) ∧
      (_report_linter_results ['a'] ['y'] false [] true
          (fun _ => ['x'])).2.1 ['a'] = ['y'] :=
  ⟨(write_in_place ['a'] ['b', 'c']).1 ['b'] (by decide),
   ((write_in_place ['a'] ['b', 'c']).2.2 ['a'] ['y'] [] true
      (fun _ => ['x'])).1⟩

/-! Claim C6. -/

/-- C6: a `LinterException` raised by a checker is absorbed rather than
crashing the run: a per-file failure records the single path with the
fixability the failure declares (lines 34-41), and a whole-set failure
records every path of the filtered batch with that fixability (lines
55-60); both return normally with no write, so the remaining work of the
run continues. -/
theorem linter_exception_absorbed :
    (∀ (l : Linter) (f : FPath) (c : Content) (vo : Bool) (fs : FileSys)
        (lex : LinterException), l.run_one f c = .error lex →
        _run_linter_one l f c vo fs = ((some f, lex.fixable), fs, [])) ∧
    (∀ (l : Linter) (files : List FPath) (vo : Bool) (fs : FileSys)
        (lex : LinterException), l.run_all files fs = .error lex →
        _run_linter_all l files vo fs =
          (files.map fun f => (some f, lex.fixable), fs, [])) := by
  constructor
  · intro l f c vo fs lex h
    simp [_run_linter_one, h]
  · intro l files vo fs lex h
    simp [_run_linter_all, h]

/-- C6 witness: the always-failing checker at concrete inputs. -/
theorem linter_exception_absorbed_witness :
    _run_linter_one failLinter ['a'] ['x'] true (fun _ => ['x'])
        = ((some ['a'], false), fun _ => ['x'], []) ∧
      _run_linter_all failLinter [['a'], ['b']] true (fun _ => ['x'])
        = ([(some ['a'], false), (some ['b'], false)],
            fun _ => ['x'], []) :=
  ⟨linter_exception_absorbed.1 failLinter ['a'] ['x'] true _
      ⟨"boom", false⟩ rfl,
   linter_exception_absorbed.2 failLinter [['a'], ['b']] true _
      ⟨"boom", false⟩ rfl⟩

/-! Claim C8. -/

/-- C8: a processed path whose returned contents equal the original is not
recorded as a violation and is not written, in either mode: the per-file
task returns `(None, False)` leaving the tree untouched (lines 43-44), and
an unchanged whole-set entry contributes `(None, False)` with no write and
no tree change for that entry (lines 63-65). -/
theorem unchanged_not_reported :
    (∀ (l : Linter) (f : FPath) (c : Content) (vo : Bool) (fs : FileSys)
        (vs : List String), l.run_one f c = .ok (c, vs) →
        _run_linter_one l f c vo fs = ((none, false), fs, [])) ∧
    (∀ (vo : Bool) (orig : FPath → Content) (vs : List String) (f : FPath)
        (rest : List (FPath × Content)) (fs : FileSys),
        runAllEntries vo orig vs ((f, orig f) :: rest) fs =
          ((none, false) :: (runAllEntries vo orig vs rest fs).1,
            (runAllEntries vo orig vs rest fs).2.1,
            (runAllEntries vo orig vs rest fs).2.2)) := by
  constructor
  · intro l f c vo fs vs h
    simp [_run_linter_one, h]
  · intro vo orig vs f rest fs
    simp [runAllEntries]

/-- C8 witness: the inert checker at a concrete input. -/
theorem unchanged_not_reported_witness :
    _run_linter_one idLinter ['a'] ['x'] false (fun _ => ['x'])
        = ((none, false), fun _ => ['x'], []) :=
  unchanged_not_reported.1 idLinter ['a'] ['x'] false _ [] rfl

/-! Claim C10. -/

/-- C10: with an empty candidate file list the run returns immediately
(lines 117-118) with exit status 0 and an empty event trace: the
configuration document is not read, no checker is constructed or run, and
no file is read or written. -/
theorem empty_files_immediate_success :
    ∀ (env : Env) (args : Args), args.files = [] →
      mainRun env args = (0, []) := by
  intro env args h
  simp [mainRun, mainWith, h]

/-- C10 witness: a concrete run with no candidate files. -/
theorem empty_files_immediate_success_witness :
    mainRun envAB ⟨[], "fix", [("whitespace", optA)], false⟩ = (0, []) :=
  empty_files_immediate_success envAB _ rfl

/-! Claim C1. -/

/-- Helper: the checker loop aborts (yields `none`) whenever some entry of
the roster carries an unknown name, wherever in the roster it occurs. -/
lemma checkerLoop_none_of_unknown (env : Env) (files0 : List FPath)
    (vo : Bool) :
    ∀ (l : List (String × LintOptions)) (n : String) (o : LintOptions)
      (acc : List FPath) (fx : Bool) (fs : FileSys),
      (n, o) ∈ l → n ∉ linterNames →
      (checkerLoop env files0 vo l acc fx fs).1 = none := by
  intro l
  induction l with
  | nil =>
    intro n o acc fx fs hmem _
    cases hmem
  | cons e rest ih =>
    obtain ⟨m, p⟩ := e
    intro n o acc fx fs hmem hn
    rcases List.mem_cons.mp hmem with h | h
    · obtain ⟨rfl, rfl⟩ := Prod.mk.injEq .. ▸ h
      simp [checkerLoop, hn]
    · by_cases hm : m ∈ linterNames
      · simp only [checkerLoop, if_pos hm]
        exact ih n o _ _ _ h hn
      · simp [checkerLoop, hm]

/-- C1 counterexample: with the roster `whitespace` (known) followed by
`foo` (unknown) in fix mode, the run exits with status 1 but the earlier
checker has already performed work before the abort: file `a` was read and
rewritten on disk, so the abort is neither before any checker runs nor
before any file is read or written. -/
theorem unknown_checker_not_failfast :
    (mainRun envAB ⟨[['a']], "fix",
        [("whitespace", optA), ("foo", optA)], false⟩).1 = 1 ∧
      Event.writeF ['a'] ['y'] ∈
        (mainRun envAB ⟨[['a']], "fix",
          [("whitespace", optA), ("foo", optA)], false⟩).2 ∧
      Event.readF ['a'] ∈
        (mainRun envAB ⟨[['a']], "fix",
          [("whitespace", optA), ("foo", optA)], false⟩).2 := by
  decide

/-- C1 amended: an unknown checker name is fatal at the point its
configuration entry is reached: the run exits with status 1, and the
unknown checker and all later entries do no work; when the unknown name is
the first roster entry the run aborts having done nothing but read the
configuration document — but checkers listed before the unknown entry have
already performed their work by the time of the abort. -/
theorem unknown_checker_aborts :
    (∀ (env : Env) (args : Args) (n : String) (o : LintOptions),
        args.files ≠ [] → (n, o) ∈ args.config → n ∉ linterNames →
        (mainRun env args).1 = 1) ∧
    (∀ (env : Env) (args : Args) (n : String) (o : LintOptions)
        (rest : List (String × LintOptions)),
        args.files ≠ [] → args.config = (n, o) :: rest → n ∉ linterNames →
        mainRun env args = (1, [Event.readConfig])) := by
  constructor
  · intro env args n o hne hmem hn
    have h := checkerLoop_none_of_unknown env args.files
      (args.tool == "validate") args.config n o [] false env.fs0 hmem hn
    rcases hE : checkerLoop env args.files (args.tool == "validate")
        args.config [] false env.fs0 with ⟨res, fw, evs⟩
    rw [hE] at h
    simp only at h
    subst h
    simp [mainRun, mainWith, hne, hE]
  · intro env args n o rest hne hcfg hn
    simp [mainRun, mainWith, hne, hcfg, checkerLoop, hn]

/-- C1 witness: the amended statement at the concrete runs of the
counterexample roster and of a roster whose first entry is unknown. -/
theorem unknown_checker_aborts_witness :
    (mainRun envAB ⟨[['a']], "fix",
        [("whitespace", optA), ("foo", optA)], false⟩).1 = 1 ∧
      mainRun envAB ⟨[['a']], "fix", [("foo", optA)], false⟩
        = (1, [Event.readConfig]) :=
  ⟨unknown_checker_aborts.1 envAB _ "foo" optA (by decide)
      (List.mem_cons_of_mem _ (List.mem_cons_self _ _)) (by decide),
   unknown_checker_aborts.2 envAB _ "foo" optA [] (by decide) rfl
      (by decide)⟩

/-! Claim C2. -/

/-- C2: for every run that reaches the outcome decision of lines 160-180
(the checker loop completed; with no candidate files the decision is
trivially clean), the process exit status is 0 iff the accumulated
violation set is empty; every other terminal outcome — unfixable errors,
fixes written, validation failure with or without a successful retry —
exits with status 1. -/
theorem exit_zero_iff_clean :
    ∀ (env : Env) (args : Args) (v : List FPath) (fx : Bool),
      sessionResult env args = some (v, fx) →
      ((mainRun env args).1 = 0 ↔ v = []) := by
  intro env args v fx h
  by_cases hne : args.files = []
  · rw [sessionResult, if_pos hne] at h
    simp only [Option.some.injEq, Prod.mk.injEq] at h
    obtain ⟨hv, _⟩ := h
    simp [mainRun, mainWith, hne, ← hv]
  · rw [sessionResult, if_neg hne] at h
    rcases hE : checkerLoop env args.files (args.tool == "validate")
        args.config [] false env.fs0 with ⟨res, fw, evs⟩
    rw [hE] at h
    simp only at h
    subst h
    by_cases hv : v = []
    · subst hv
      simp [mainRun, mainWith, hne, hE]
    · simp only [mainRun, mainWith, if_neg hne, hE, if_neg hv]
      cases fx <;> simp [hv] <;> split <;> simp [hv]

/-- C2 witness: a clean concrete run and its empty violation set. -/
theorem exit_zero_iff_clean_witness :
    (mainRun envId ⟨[['a']], "validate",
        [("whitespace", optA)], false⟩).1 = 0 ↔ ([] : List FPath) = [] :=
  exit_zero_iff_clean envId _ [] false (by decide)

/-! Claim C9. -/

/-- Helper: `_report_linter_results` always names its file in the result. -/
lemma report_fst (f : FPath) (nc : Content) (vo : Bool) (vs : List String)
    (fx : Bool) (fs : FileSys) :
    (_report_linter_results f nc vo vs fx fs).1.1 = some f := by
  unfold _report_linter_results
  split <;> rfl

/-- Helper: a per-file result flagged fixable names a path. -/
lemma one_fixable_isSome (l : Linter) (f : FPath) (c : Content) (vo : Bool)
    (fs : FileSys) :
    (_run_linter_one l f c vo fs).1.2 = true →
    (_run_linter_one l f c vo fs).1.1.isSome := by
  cases h : l.run_one f c with
  | error lex => simp [_run_linter_one, h]
  | ok p =>
    obtain ⟨nc, vs⟩ := p
    by_cases hc : c = nc
    · subst hc
      simp [_run_linter_one, h]
    · simp [_run_linter_one, h, hc, report_fst]

/-- Helper: every per-file-phase result flagged fixable names a path. -/
lemma perFile_fixable_isSome (l : Linter) (pre : FileSys) (vo : Bool) :
    ∀ (keys : List FPath) (fs : FileSys) (pr : Option FPath × Bool),
      pr ∈ (runPerFile l pre vo keys fs).1 → pr.2 = true → pr.1.isSome := by
  intro keys
  induction keys with
  | nil =>
    intro fs pr h
    simp [runPerFile] at h
  | cons f rest ih =>
    intro fs pr h ht
    simp only [runPerFile, List.mem_cons] at h
    rcases h with h | h
    · subst h
      exact one_fixable_isSome l f (pre f) vo fs ht
    · exact ih _ pr h ht

/-- Helper: every whole-set-entry result flagged fixable names a path. -/
lemma allEntries_fixable_isSome (vo : Bool) (orig : FPath → Content)
    (vs : List String) :
    ∀ (entries : List (FPath × Content)) (fs : FileSys)
      (pr : Option FPath × Bool),
      pr ∈ (runAllEntries vo orig vs entries fs).1 → pr.2 = true →
      pr.1.isSome := by
  intro entries
  induction entries with
  | nil =>
    intro fs pr h
    simp [runAllEntries] at h
  | cons e rest ih =>
    obtain ⟨f, nc⟩ := e
    intro fs pr h ht
    by_cases hc : orig f = nc
    · simp only [runAllEntries, if_pos hc, List.mem_cons] at h
      rcases h with h | h
      · subst h
        simp at ht
      · exact ih _ pr h ht
    · simp only [runAllEntries, if_neg hc, List.mem_cons] at h
      rcases h with h | h
      · subst h
        rw [report_fst]
        rfl
      · exact ih _ pr h ht

/-- Helper: every whole-set-phase result flagged fixable names a path. -/
lemma runAll_fixable_isSome (l : Linter) (files : List FPath) (vo : Bool)
    (fs : FileSys) (pr : Option FPath × Bool) :
    pr ∈ (_run_linter_all l files vo fs).1 → pr.2 = true →
    pr.1.isSome := by
  cases h : l.run_all files fs with
  | error lex =>
    intro hm _
    simp only [_run_linter_all, h, List.mem_map] at hm
    obtain ⟨f, _, hf⟩ := hm
    rw [← hf]
    rfl
  | ok out =>
    intro hm ht
    simp only [_run_linter_all, h] at hm
    exact allEntries_fixable_isSome vo out.orig out.violations out.newFiles
      fs pr hm ht

/-- Helper: a fixable `_run_linter` aggregate has a recorded violating
path. -/
lemma run_linter_fixable_nonempty (l : Linter) (files : List FPath)
    (vo : Bool) (fs : FileSys) :
    (_run_linter l files vo fs).1.2 = true →
    (_run_linter l files vo fs).1.1 ≠ [] := by
  simp only [_run_linter, List.any_eq_true]
  rintro ⟨pr, hpr, ht⟩
  have hsome : pr.1.isSome := by
    rcases List.mem_append.mp hpr with h | h
    · exact perFile_fixable_isSome l fs vo files.dedup fs pr h ht
    · exact runAll_fixable_isSome l files vo _ pr h ht
  obtain ⟨p, hp⟩ := Option.isSome_iff_exists.mp hsome
  exact List.ne_nil_of_mem (List.mem_filterMap.mpr ⟨pr, hpr, hp⟩)

/-- Helper: the checker loop propagates the invariant that a true fixable
flag comes with a non-empty accumulated violation list. -/
lemma checkerLoop_fixable_nonempty (env : Env) (files0 : List FPath)
    (vo : Bool) :
    ∀ (l : List (String × LintOptions)) (acc : List FPath) (fx : Bool)
      (fs : FileSys) (v : List FPath),
      (checkerLoop env files0 vo l acc fx fs).1 = some (v, true) →
      (fx = true → acc ≠ []) → v ≠ [] := by
  intro l
  induction l with
  | nil =>
    intro acc fx fs v h hacc
    simp only [checkerLoop, Option.some.injEq, Prod.mk.injEq] at h
    obtain ⟨hv, hfx⟩ := h
    subst hv
    exact hacc hfx
  | cons e rest ih =>
    obtain ⟨name, opts⟩ := e
    intro acc fx fs v h hacc
    by_cases hn : name ∈ linterNames
    · simp only [checkerLoop, if_pos hn] at h
      refine ih _ _ _ v h ?_
      intro hor
      rw [Bool.or_eq_true] at hor
      rcases hor with hfx | hlf
      · obtain ⟨a, ha⟩ := List.exists_mem_of_ne_nil _ (hacc hfx)
        exact List.ne_nil_of_mem (List.mem_union_iff.mpr (Or.inl ha))
      · obtain ⟨a, ha⟩ := List.exists_mem_of_ne_nil _
          (run_linter_fixable_nonempty _ _ _ _ hlf)
        exact List.ne_nil_of_mem (List.mem_union_iff.mpr (Or.inr ha))
    · simp [checkerLoop, hn] at h

/-- C9: a true fixable flag is only produced together with a recorded
violating path, both for a single checker invocation (lines 108-110) and
for the whole session; consequently the unfixable-errors branch of line 161
is only evaluated when violations exist. -/
theorem fixable_implies_violations :
    (∀ (l : Linter) (files : List FPath) (vo : Bool) (fs : FileSys),
        (_run_linter l files vo fs).1.2 = true →
        (_run_linter l files vo fs).1.1 ≠ []) ∧
    (∀ (env : Env) (args : Args) (v : List FPath),
        sessionResult env args = some (v, true) → v ≠ []) := by
  constructor
  · exact run_linter_fixable_nonempty
  · intro env args v h
    by_cases hne : args.files = []
    · rw [sessionResult, if_pos hne] at h
      simp at h
    · rw [sessionResult, if_neg hne] at h
      exact checkerLoop_fixable_nonempty env args.files _ args.config []
        false env.fs0 v h (by simp)

/-- C9 witness: the always-failing fixable checker at concrete inputs. -/
theorem fixable_implies_violations_witness :
    (_run_linter failFixableLinter [['a']] true (fun _ => ['x'])).1.1 ≠ []
      ∧ ([['a'], ['a']] : List FPath) ≠ [] :=
  ⟨fixable_implies_violations.1 failFixableLinter [['a']] true _ (by decide),
   fixable_implies_violations.2 envFail
      ⟨[['a']], "validate", [("whitespace", optA)], false⟩ [['a'], ['a']]
      (by decide)⟩

/-! Claim C4. -/

/-- Helper: the reporter emits no retry events. -/
lemma report_noRetry (f : FPath) (nc : Content) (vo : Bool)
    (vs : List String) (fx : Bool) (fs : FileSys) :
    ((_report_linter_results f nc vo vs fx fs).2.2).filter Event.isRetry
      = [] := by
  unfold _report_linter_results
  split <;> simp [Event.isRetry]

/-- Helper: a per-file task emits no retry events. -/
lemma one_noRetry (l : Linter) (f : FPath) (c : Content) (vo : Bool)
    (fs : FileSys) :
    ((_run_linter_one l f c vo fs).2.2).filter Event.isRetry = [] := by
  cases h : l.run_one f c with
  | error lex => simp [_run_linter_one, h]
  | ok p =>
    obtain ⟨nc, vs⟩ := p
    by_cases hc : c = nc
    · subst hc
      simp [_run_linter_one, h]
    · simp [_run_linter_one, h, hc, report_noRetry]

/-- Helper: the per-file phase emits no retry events. -/
lemma perFile_noRetry (l : Linter) (pre : FileSys) (vo : Bool) :
    ∀ (keys : List FPath) (fs : FileSys),
      ((runPerFile l pre vo keys fs).2.2).filter Event.isRetry = [] := by
  intro keys
  induction keys with
  | nil => intro fs; simp [runPerFile]
  | cons f rest ih =>
    intro fs
    simp [runPerFile, List.filter_append, one_noRetry, ih]

/-- Helper: the whole-set entry loop emits no retry events. -/
lemma allEntries_noRetry (vo : Bool) (orig : FPath → Content)
    (vs : List String) :
    ∀ (entries : List (FPath × Content)) (fs : FileSys),
      ((runAllEntries vo orig vs entries fs).2.2).filter Event.isRetry
        = [] := by
  intro entries
  induction entries with
  | nil => intro fs; simp [runAllEntries]
  | cons e rest ih =>
    obtain ⟨f, nc⟩ := e
    intro fs
    by_cases hc : orig f = nc
    · simp [runAllEntries, hc, ih]
    · simp [runAllEntries, hc, List.filter_append, report_noRetry, ih]

/-- Helper: the whole-set phase emits no retry events. -/
lemma runAll_noRetry (l : Linter) (files : List FPath) (vo : Bool)
    (fs : FileSys) :
    ((_run_linter_all l files vo fs).2.2).filter Event.isRetry = [] := by
  cases h : l.run_all files fs with
  | error lex => simp [_run_linter_all, h]
  | ok out => simp [_run_linter_all, h, allEntries_noRetry]

/-- Helper: one checker invocation emits no retry events. -/
lemma run_linter_noRetry (l : Linter) (files : List FPath) (vo : Bool)
    (fs : FileSys) :
    ((_run_linter l files vo fs).2.2).filter Event.isRetry = [] := by
  simp only [_run_linter, List.filter_append]
  rw [perFile_noRetry, runAll_noRetry]
  have h : ∀ e ∈ files.dedup.map Event.readF, ¬Event.isRetry e = true := by
    intro e he
    obtain ⟨p, _, rfl⟩ := List.mem_map.mp he
    simp [Event.isRetry]
  simp [List.filter_eq_nil_iff.mpr h]

/-- Helper: the checker loop emits no retry events. -/
lemma checkerLoop_noRetry (env : Env) (files0 : List FPath) (vo : Bool) :
    ∀ (l : List (String × LintOptions)) (acc : List FPath) (fx : Bool)
      (fs : FileSys),
      ((checkerLoop env files0 vo l acc fx fs).2.2).filter Event.isRetry
        = [] := by
  intro l
  induction l with
  | nil => intro acc fx fs; simp [checkerLoop]
  | cons e rest ih =>
    obtain ⟨name, opts⟩ := e
    intro acc fx fs
    by_cases hn : name ∈ linterNames
    · simp [checkerLoop, hn, List.filter_cons, List.filter_append,
        run_linter_noRetry, ih, Event.isRetry]
    · simp [checkerLoop, hn]

/-- Helper: a run whose mode is not validate never consults its retry
collaborator. -/
lemma mainWith_retryF_irrelevant (env : Env) (args : Args)
    (rf rf' : List FPath → Bool × List Event)
    (h : (args.tool == "validate") = false) :
    mainWith env args rf = mainWith env args rf' := by
  by_cases hne : args.files = []
  · simp [mainWith, hne]
  · simp only [mainWith, if_neg hne]
    rcases checkerLoop env args.files (args.tool == "validate") args.config
        [] false env.fs0 with ⟨res, fw, evs⟩
    cases res with
    | none => rfl
    | some p =>
      obtain ⟨v, fx⟩ := p
      simp [h]

/-- Helper: a run whose retry collaborator has a retry-free trace has a
retry-free trace outside its single retry decision point. -/
lemma mainWith_noRetry (env : Env) (args : Args)
    (rf : List FPath → Bool × List Event)
    (hrf : ∀ ps, ((rf ps).2).filter Event.isRetry = []) :
    ((mainWith env args rf).2).filter Event.isRetry = [] := by
  by_cases hne : args.files = []
  · simp [mainWith, hne]
  · simp only [mainWith, if_neg hne]
    rcases hE : checkerLoop env args.files (args.tool == "validate")
        args.config [] false env.fs0 with ⟨res, fw, evs⟩
    have hevs : evs.filter Event.isRetry = [] := by
      have h := checkerLoop_noRetry env args.files (args.tool == "validate")
        args.config [] false env.fs0
      rw [hE] at h
      exact h
    cases res with
    | none => simp [List.filter_cons, Event.isRetry, hevs]
    | some p =>
      obtain ⟨v, fx⟩ := p
      by_cases hv : v = []
      · simp [hv, List.filter_cons, Event.isRetry, hevs]
      · cases fx with
        | false => simp [hv, List.filter_cons, Event.isRetry, hevs]
        | true =>
          by_cases ht : (args.tool == "validate") = true
          · simp [hv, ht, List.filter_cons, List.filter_append,
              Event.isRetry, hevs, hrf]
          · simp [hv, ht, List.filter_cons, Event.isRetry, hevs]

/-- C4: in a validate-mode run ending with a non-empty violation set and a
true fixable flag, exactly one retry is attempted: the whole trace contains
exactly one retry event, carrying exactly the violating paths (the pipeline
re-invoked in fix mode on those paths, non-interactively, per
`attempt_automatic_fixes`), the run exits with status 1 whether or not the
retry succeeds, and no second retry ever occurs. -/
theorem validate_retry_once :
    ∀ (env : Env) (args : Args) (v : List FPath),
      sessionResult env args = some (v, true) → v ≠ [] →
      args.tool = "validate" →
      (mainRun env args).1 = 1 ∧
        ((mainRun env args).2).filter Event.isRetry = [Event.retryEv v] := by
  intro env args v h hv ht
  have hne : args.files ≠ [] := by
    intro h0
    rw [sessionResult, if_pos h0] at h
    simp at h
  rw [sessionResult, if_neg hne] at h
  rcases hE : checkerLoop env args.files (args.tool == "validate")
      args.config [] false env.fs0 with ⟨res, fw, evs⟩
  rw [hE] at h
  simp only at h
  subst h
  have hvo : (args.tool == "validate") = true := by simp [ht]
  have hevs : evs.filter Event.isRetry = [] := by
    have hh := checkerLoop_noRetry env args.files (args.tool == "validate")
      args.config [] false env.fs0
    rw [hE] at hh
    exact hh
  have hsub : ((mainWith env
      { args with tool := "fix", files := v, continuous_integration := true }
      fun _ => (false, [])).2).filter Event.isRetry = [] :=
    mainWith_noRetry _ _ _ fun ps => rfl
  rw [hvo] at hE
  constructor
  · simp [mainRun, mainWith, if_neg hne, hvo, hE, hv]
  · simp [mainRun, mainWith, if_neg hne, hvo, hE, hv]
    simp only [attempt_automatic_fixes]
    simp [List.filter_cons, List.filter_append, Event.isRetry, hevs, hsub]

/-- C4 witness: a concrete validate-mode run with a fixable violation. -/
theorem validate_retry_once_witness :
    (mainRun envAB ⟨[['a']], "validate",
        [("whitespace", optA)], false⟩).1 = 1 ∧
      ((mainRun envAB ⟨[['a']], "validate",
          [("whitespace", optA)], false⟩).2).filter Event.isRetry
        = [Event.retryEv [['a']]] :=
  validate_retry_once envAB _ [['a']] (by decide) (by decide) rfl

/-! Claim C7. -/

/-- Helper: in validate mode the reporter leaves the tree unchanged. -/
lemma report_fs_validate (f : FPath) (nc : Content) (vs : List String)
    (fx : Bool) (fs : FileSys) :
    (_report_linter_results f nc true vs fx fs).2.1 = fs := rfl

/-- Helper: in validate mode a per-file task leaves the tree unchanged. -/
lemma one_fs_validate (l : Linter) (f : FPath) (c : Content)
    (fs : FileSys) : (_run_linter_one l f c true fs).2.1 = fs := by
  cases h : l.run_one f c with
  | error lex => simp [_run_linter_one, h]
  | ok p =>
    obtain ⟨nc, vs⟩ := p
    by_cases hc : c = nc
    · subst hc
      simp [_run_linter_one, h]
    · simp [_run_linter_one, h, hc, report_fs_validate]

/-- Helper: in validate mode the per-file phase leaves the tree
unchanged. -/
lemma perFile_fs_validate (l : Linter) (pre : FileSys) :
    ∀ (keys : List FPath) (fs : FileSys),
      (runPerFile l pre true keys fs).2.1 = fs := by
  intro keys
  induction keys with
  | nil => intro fs; rfl
  | cons f rest ih =>
    intro fs
    simp [runPerFile, ih, one_fs_validate]

/-- Helper: in validate mode the whole-set entry loop leaves the tree
unchanged. -/
lemma allEntries_fs_validate (orig : FPath → Content) (vs : List String) :
    ∀ (entries : List (FPath × Content)) (fs : FileSys),
      (runAllEntries true orig vs entries fs).2.1 = fs := by
  intro entries
  induction entries with
  | nil => intro fs; rfl
  | cons e rest ih =>
    obtain ⟨f, nc⟩ := e
    intro fs
    by_cases hc : orig f = nc
    · simp [runAllEntries, hc, ih]
    · simp [runAllEntries, hc, ih, report_fs_validate]

/-- Helper: in validate mode the whole-set phase leaves the tree
unchanged. -/
lemma runAll_fs_validate (l : Linter) (files : List FPath) (fs : FileSys) :
    (_run_linter_all l files true fs).2.1 = fs := by
  cases h : l.run_all files fs with
  | error lex => simp [_run_linter_all, h]
  | ok out => simp [_run_linter_all, h, allEntries_fs_validate]

/-- Helper: in validate mode one checker invocation leaves the tree
unchanged. -/
lemma run_linter_fs_validate (l : Linter) (files : List FPath)
    (fs : FileSys) : (_run_linter l files true fs).2.1 = fs := by
  simp [_run_linter, perFile_fs_validate, runAll_fs_validate]

/-- Helper: `toFinset` distributes over the list union used by the
accumulator. -/
lemma toFinset_union_beq (l1 l2 : List FPath) :
    (l1 ∪ l2).toFinset = l1.toFinset ∪ l2.toFinset := by
  ext a
  simp [List.mem_union_iff]

/-- Helper: the result of the checker loop factors through the accumulator:
starting the loop from `(acc, fx)` is, up to normalization, starting it
empty and then adjoining `acc` and `fx` — because the per-entry
contributions and the threaded tree never depend on the accumulator. -/
lemma checkerLoop_factor (env : Env) (files0 : List FPath) (vo : Bool) :
    ∀ (l : List (String × LintOptions)) (acc : List FPath) (fx : Bool)
      (fs : FileSys),
      ((checkerLoop env files0 vo l acc fx fs).1).map normPair =
        (((checkerLoop env files0 vo l [] false fs).1).map normPair).map
          (fun q => (acc.toFinset ∪ q.1, fx || q.2)) := by
  intro l
  induction l with
  | nil =>
    intro acc fx fs
    simp [checkerLoop, normPair]
  | cons e rest ih =>
    obtain ⟨name, opts⟩ := e
    intro acc fx fs
    by_cases hn : name ∈ linterNames
    · simp only [checkerLoop, if_pos hn, List.nil_union, Bool.false_or]
      set L := _run_linter (env.getLinter name opts)
        (filterFiles files0 opts) vo fs with hL
      rw [ih (acc ∪ L.1.1) (fx || L.1.2) L.2.1, ih L.1.1 L.1.2 L.2.1]
      simp only [Option.map_map]
      cases (checkerLoop env files0 vo rest [] false L.2.1).1 with
      | none => rfl
      | some p =>
        simp [normPair, Function.comp, toFinset_union_beq,
          Finset.union_assoc, Bool.or_assoc]
    · simp [checkerLoop, hn]

/-- Helper: in validate mode the normalized checker-loop result is invariant
under permutation of the roster. -/
lemma checkerLoop_perm_validate (env : Env) (files0 : List FPath) :
    ∀ {l l' : List (String × LintOptions)}, List.Perm l l' →
      ∀ fs, ((checkerLoop env files0 true l [] false fs).1).map normPair =
        ((checkerLoop env files0 true l' [] false fs).1).map normPair := by
  intro l l' hperm
  induction hperm with
  | nil => intro fs; rfl
  | @cons x l₁ l₂ h ih =>
    obtain ⟨name, opts⟩ := x
    intro fs
    by_cases hn : name ∈ linterNames
    · simp only [checkerLoop, if_pos hn, List.nil_union, Bool.false_or]
      set L := _run_linter (env.getLinter name opts)
        (filterFiles files0 opts) true fs with hL
      rw [checkerLoop_factor env files0 true l₁ L.1.1 L.1.2 L.2.1,
        checkerLoop_factor env files0 true l₂ L.1.1 L.1.2 L.2.1, ih]
    · simp [checkerLoop, hn]
  | swap x y l0 =>
    obtain ⟨nx, ox⟩ := x
    obtain ⟨ny, oy⟩ := y
    intro fs
    by_cases hy : ny ∈ linterNames <;> by_cases hx : nx ∈ linterNames
    · simp only [checkerLoop, if_pos hy, if_pos hx,
        run_linter_fs_validate, List.nil_union, Bool.false_or]
      set Ly := _run_linter (env.getLinter ny oy)
        (filterFiles files0 oy) true fs with hLy
      set Lx := _run_linter (env.getLinter nx ox)
        (filterFiles files0 ox) true fs with hLx
      rw [checkerLoop_factor env files0 true l0 (Ly.1.1 ∪ Lx.1.1)
          (Ly.1.2 || Lx.1.2) fs,
        checkerLoop_factor env files0 true l0 (Lx.1.1 ∪ Ly.1.1)
          (Lx.1.2 || Ly.1.2) fs]
      simp only [Option.map_map]
      cases (checkerLoop env files0 true l0 [] false fs).1 with
      | none => rfl
      | some p =>
        simp only [Option.map_some', Function.comp_apply, Option.some.injEq,
          Prod.mk.injEq, toFinset_union_beq]
        constructor
        · rw [Finset.union_comm Ly.1.1.toFinset Lx.1.1.toFinset]
        · rw [Bool.or_comm Ly.1.2 Lx.1.2]
    · simp only [checkerLoop, if_pos hy, if_neg hx,
        run_linter_fs_validate]
    · simp only [checkerLoop, if_neg hy, if_pos hx,
        run_linter_fs_validate]
    · simp [checkerLoop, hy, hx]
  | trans h1 h2 ih1 ih2 =>
    intro fs
    exact (ih1 fs).trans (ih2 fs)

/-- C7 counterexample: in fix mode, the writes of an earlier checker change
what a later checker reads, so permuting the roster changes the final
violating-path set: with the rewriting checker (`whitespace`) listed first,
the cross-file checker (`javascript`) sees the rewritten `a` and
additionally reports `b`; listed first, it sees the original `a` and
reports nothing. -/
theorem aggregation_order_counterexample :
    List.Perm
      ([("whitespace", optA), ("javascript", optB)] :
        List (String × LintOptions))
      [("javascript", optB), ("whitespace", optA)] ∧
      normalizeResult (sessionResult envAB
          ⟨[['a'], ['b']], "fix",
            [("whitespace", optA), ("javascript", optB)], false⟩) ≠
        normalizeResult (sessionResult envAB
          ⟨[['a'], ['b']], "fix",
            [("javascript", optB), ("whitespace", optA)], false⟩) := by
  constructor
  · exact List.Perm.swap _ _ _
  · decide

/-- C7 amended: in validate mode — where no writes occur — the normalized
session result (the violating-path set together with the fixable flag) is
invariant under permutation of the checker roster, the aggregation being a
union of path sets and a disjunction of flags; in fix mode the writes of
earlier checkers feed the reads of later ones and the invariance can fail
(see the counterexample). -/
theorem aggregation_validate_perm :
    ∀ (env : Env) (args : Args) (l' : List (String × LintOptions)),
      args.tool = "validate" → List.Perm args.config l' →
      normalizeResult (sessionResult env args) =
        normalizeResult (sessionResult env { args with config := l' }) := by
  intro env args l' ht hperm
  have hvo : (args.tool == "validate") = true := by simp [ht]
  unfold sessionResult normalizeResult
  by_cases hne : args.files = []
  · simp [hne]
  · simp only [if_neg hne, hvo]
    exact checkerLoop_perm_validate env args.files hperm env.fs0

/-- C7 witness: the amended invariance at a concrete validate-mode run and
a concrete transposition of its roster. -/
theorem aggregation_validate_perm_witness :
    normalizeResult (sessionResult envAB
        ⟨[['a'], ['b']], "validate",
          [("whitespace", optA), ("javascript", optB)], false⟩) =
      normalizeResult (sessionResult envAB
        ⟨[['a'], ['b']], "validate",
          [("javascript", optB), ("whitespace", optA)], false⟩) :=
  aggregation_validate_perm envAB
    ⟨[['a'], ['b']], "validate",
      [("whitespace", optA), ("javascript", optB)], false⟩
    [("javascript", optB), ("whitespace", optA)] rfl
    (List.Perm.swap _ _ _)
